import Mathlib

/-!
Verification of the secp256k1 did:key provider (src/index.ts).

JavaScript strings are modelled as `List Char`, byte arrays (`Uint8Array`)
as `List Nat` with values reduced mod 256 at every write, and thrown
exceptions as `Except JsErr`.  External collaborators (the SHA-256
primitive, the elliptic-curve signing library and the remote Lit signing
service) are opaque in the source and appear here as function parameters.
-/

set_option maxRecDepth 30000

/-- Model of JavaScript `String.prototype.split(sep)` (single-char separator,
no limit): `"".split(".") = [""]`, separators at the ends produce empty parts. -/
def splitOnChar (sep : Char) : List Char → List (List Char)
  | [] => [[]]
  | c :: rest =>
    match splitOnChar sep rest with
    | [] => [[]]
    | g :: gs => if c = sep then [] :: g :: gs else (c :: g) :: gs

/-- Model of a JavaScript typed-array element write `arr[i] = v`:
out-of-range indices are ignored, values are stored mod 256. -/
def listSet (arr : List Nat) (i : Nat) (v : Nat) : List Nat :=
  arr.set i (v % 256)

/-- Model of `Uint8Array.prototype.set(src, off)`: throws a RangeError
(`none`) when the source does not fit, otherwise overwrites in place. -/
def uset (arr src : List Nat) (off : Nat) : Option (List Nat) :=
  if off + src.length ≤ arr.length then
    some (arr.take off ++ src.map (fun b => b % 256) ++ arr.drop (off + src.length))
  else none

/-! ## Hexadecimal codec (`uint8arrays` base16) -/

def hexChars : List Char := "0123456789abcdef".toList

def hexChar (n : Nat) : Char := hexChars.getD n '0'

/-- Value of one base16 alphabet character; the `uint8arrays` base16 alphabet
is lowercase only, anything else is a decode failure. -/
def hexVal (c : Char) : Option Nat := hexChars.findIdx? (fun x => x = c)

/-- `u8a.fromString(s, 'base16')`: fails on odd length or foreign characters. -/
def hexDecode : List Char → Option (List Nat)
  | [] => some []
  | [_] => none
  | c1 :: c2 :: rest =>
    match hexVal c1, hexVal c2, hexDecode rest with
    | some v1, some v2, some bs => some ((v1 * 16 + v2) :: bs)
    | _, _, _ => none

/-- `u8a.toString(b, 'base16')` (source `bytesToHex`). -/
def bytesToHex (bs : List Nat) : List Char :=
  bs.flatMap (fun b => [hexChar (b / 16), hexChar (b % 16)])

/-- Minimal-length lowercase hex of a BN (`r.toString('hex')` in `elliptic`);
fuel-structured so the kernel can evaluate it. -/
def natToHexGo : Nat → Nat → List Char
  | 0, _ => []
  | fuel + 1, n => if n = 0 then [] else natToHexGo fuel (n / 16) ++ [hexChar (n % 16)]

def natToHex (n : Nat) : List Char :=
  if n = 0 then ['0'] else natToHexGo n n

/-- Bool-level "64 lowercase hex characters". -/
def isHex64 (r : List Char) : Bool :=
  r.length == 64 && r.all (fun c => (hexVal c).isSome)

/-! ## Base64url codec (`uint8arrays` base64url, unpadded) -/

def b64Chars : List Char :=
  "ABCDEFGHIJKLMNOPQRSTUVWXYZabcdefghijklmnopqrstuvwxyz0123456789-_".toList

def b64Char (n : Nat) : Char := b64Chars.getD n 'A'

def b64Val (c : Char) : Option Nat := b64Chars.findIdx? (fun x => x = c)

/-- `u8a.toString(b, 'base64url')` (source `bytesToBase64url`): groups of
three bytes become four characters, trailing groups are shortened, no padding. -/
def bytesToBase64url : List Nat → List Char
  | [] => []
  | [a] => [b64Char (a / 4), b64Char (a % 4 * 16)]
  | [a, b] => [b64Char (a / 4), b64Char (a % 4 * 16 + b / 16), b64Char (b % 16 * 4)]
  | a :: b :: c :: rest =>
    b64Char (a / 4) :: b64Char (a % 4 * 16 + b / 16) ::
      b64Char (b % 16 * 4 + c / 64) :: b64Char (c % 64) :: bytesToBase64url rest

/-- Unpadded base64url decoding: fails on foreign characters or a dangling
single character; surplus trailing bits are discarded. -/
def b64Decode : List Char → Option (List Nat)
  | [] => some []
  | [_] => none
  | [c1, c2] =>
    match b64Val c1, b64Val c2 with
    | some v1, some v2 => some [v1 * 4 + v2 / 16]
    | _, _ => none
  | [c1, c2, c3] =>
    match b64Val c1, b64Val c2, b64Val c3 with
    | some v1, some v2, some v3 => some [v1 * 4 + v2 / 16, v2 % 16 * 16 + v3 / 4]
    | _, _, _ => none
  | c1 :: c2 :: c3 :: c4 :: rest =>
    match b64Val c1, b64Val c2, b64Val c3, b64Val c4, b64Decode rest with
    | some v1, some v2, some v3, some v4, some bs =>
      some ((v1 * 4 + v2 / 16) :: (v2 % 16 * 16 + v3 / 4) :: (v3 % 4 * 64 + v4) :: bs)
    | _, _, _, _, _ => none

/-- The normalisation in source `base64ToBytes`: `+` to `-`, `/` to `_`,
strip `=`. -/
def base64urlNormalize (s : List Char) : List Char :=
  (((s.map (fun c => if c = '+' then '-' else c)).map
      (fun c => if c = '/' then '_' else c)).filter (fun c => c ≠ '='))

/-- Source `base64ToBytes`. -/
def base64ToBytes (s : List Char) : Option (List Nat) :=
  b64Decode (base64urlNormalize s)

/-! ## Base58btc codec (`uint8arrays` base58btc) -/

def b58Chars : List Char :=
  "123456789ABCDEFGHJKLMNPQRSTUVWXYZabcdefghijkmnopqrstuvwxyz".toList

def b58Char (n : Nat) : Char := b58Chars.getD n '1'

def natToB58Go : Nat → Nat → List Char
  | 0, _ => []
  | fuel + 1, n => if n = 0 then [] else natToB58Go fuel (n / 58) ++ [b58Char (n % 58)]

def natToB58 (n : Nat) : List Char := natToB58Go n n

/-- Big-endian byte-list to natural number. -/
def bytesToNat (bs : List Nat) : Nat := bs.foldl (fun acc b => acc * 256 + b) 0

def lzCount : List Nat → Nat
  | [] => 0
  | b :: rest => if b = 0 then lzCount rest + 1 else 0

/-- Standard base58btc (Bitcoin alphabet, leading zero bytes become '1'). -/
def base58btc (bs : List Nat) : List Char :=
  List.replicate (lzCount bs) '1' ++ natToB58 (bytesToNat bs)

/-! ## UTF-8 (`u8a.fromString` with the default codec) -/

def utf8Char (c : Char) : List Nat :=
  let n := c.toNat
  if n < 128 then [n]
  else if n < 2048 then [192 + n / 64, 128 + n % 64]
  else if n < 65536 then [224 + n / 4096, 128 + n / 64 % 64, 128 + n % 64]
  else [240 + n / 262144, 128 + n / 4096 % 64, 128 + n / 64 % 64, 128 + n % 64]

def strBytes (s : List Char) : List Nat := s.flatMap utf8Char

/-! ## JSON values and serialisation

JavaScript objects keep insertion order; `Json`, `JsonList` and
`JsonFields` are a mutual rendering of JSON values so that all recursion
stays structural (and therefore kernel-evaluable). -/

mutual
inductive Json where
  | str (s : List Char)
  | num (n : Int)
  | bool (b : Bool)
  | null
  | arr (xs : JsonList)
  | obj (fields : JsonFields)
deriving DecidableEq
inductive JsonList where
  | nil
  | cons (hd : Json) (tl : JsonList)
deriving DecidableEq
inductive JsonFields where
  | nil
  | cons (key : List Char) (val : Json) (tl : JsonFields)
deriving DecidableEq
end

def lbrace : Char := Char.ofNat 123

def rbrace : Char := Char.ofNat 125

/-- `JSON.stringify` escaping of one string character. -/
def jsonEscape (c : Char) : List Char :=
  if c = '"' then ['\\', '"']
  else if c = '\\' then ['\\', '\\']
  else if c = Char.ofNat 8 then ['\\', 'b']
  else if c = Char.ofNat 9 then ['\\', 't']
  else if c = Char.ofNat 10 then ['\\', 'n']
  else if c = Char.ofNat 12 then ['\\', 'f']
  else if c = Char.ofNat 13 then ['\\', 'r']
  else if c.toNat < 32 then ['\\', 'u', '0', '0', hexChar (c.toNat / 16), hexChar (c.toNat % 16)]
  else [c]

def quoteStr (s : List Char) : List Char := '"' :: (s.flatMap jsonEscape ++ ['"'])

mutual
/-- `JSON.stringify` (no replacer/indent), field order as stored. -/
def jsonStringify : Json → List Char
  | .str s => quoteStr s
  | .num n => (toString n).toList
  | .bool true => "true".toList
  | .bool false => "false".toList
  | .null => "null".toList
  | .arr xs => '[' :: (jsonStringifyList xs ++ [']'])
  | .obj fs => lbrace :: (jsonStringifyFields fs ++ [rbrace])
def jsonStringifyList : JsonList → List Char
  | .nil => []
  | .cons x .nil => jsonStringify x
  | .cons x (.cons y tl) => jsonStringify x ++ ',' :: jsonStringifyList (.cons y tl)
def jsonStringifyFields : JsonFields → List Char
  | .nil => []
  | .cons k v .nil => quoteStr k ++ ':' :: jsonStringify v
  | .cons k v (.cons k2 v2 tl) =>
    quoteStr k ++ ':' :: jsonStringify v ++ ',' :: jsonStringifyFields (.cons k2 v2 tl)
end

mutual
/-- JavaScript string coercion (used when a value indexes an object;
only string-typed `alg` values occur in practice). -/
def jsToStr : Json → List Char
  | .str s => s
  | .num n => (toString n).toList
  | .bool true => "true".toList
  | .bool false => "false".toList
  | .null => "null".toList
  | .arr xs => jsToStrList xs
  | .obj _ => "[object Object]".toList
def jsToStrList : JsonList → List Char
  | .nil => []
  | .cons x .nil => jsToStr x
  | .cons x (.cons y tl) => jsToStr x ++ ',' :: jsToStrList (.cons y tl)
end

/-- JavaScript falsiness of an optional property value. -/
def jsFalsy : Option Json → Bool
  | none => true
  | some (.str []) => true
  | some (.num 0) => true
  | some (.bool false) => true
  | some .null => true
  | some _ => false

/-- First-match property read. -/
def JsonFields.lookup : JsonFields → List Char → Option Json
  | .nil, _ => none
  | .cons k v tl, key => if k = key then some v else tl.lookup key

/-- JavaScript property assignment `obj[k] = v`: overwrites in place,
appends at the end when the key is new (`Object.assign` per-key step). -/
def jsSet : JsonFields → List Char → Json → JsonFields
  | .nil, k, v => .cons k v .nil
  | .cons k0 v0 tl, k, v =>
    if k0 = k then .cons k v tl else .cons k0 v0 (jsSet tl k v)

/-- UTF-16 code-unit lexicographic string order used by `Array.sort()`. -/
def keyLe : List Char → List Char → Bool
  | [], _ => true
  | _ :: _, [] => false
  | a :: as, b :: bs =>
    if a.toNat < b.toNat then true
    else if b.toNat < a.toNat then false
    else keyLe as bs

def insertField (k : List Char) (v : Json) : JsonFields → JsonFields
  | .nil => .cons k v .nil
  | .cons k0 v0 tl =>
    if keyLe k k0 then .cons k v (.cons k0 v0 tl) else .cons k0 v0 (insertField k v tl)

def sortFields : JsonFields → JsonFields
  | .nil => .nil
  | .cons k v tl => insertField k v (sortFields tl)

mutual
/-- `fast-json-stable-stringify` key ordering applied recursively (the
effect of `JSON.parse(stringify(obj))` in source `toStableObject`). -/
def stableJson : Json → Json
  | .obj fs => .obj (sortFields (stableFields fs))
  | .arr xs => .arr (stableList xs)
  | .str s => .str s
  | .num n => .num n
  | .bool b => .bool b
  | .null => .null
def stableList : JsonList → JsonList
  | .nil => .nil
  | .cons x tl => .cons (stableJson x) (stableList tl)
def stableFields : JsonFields → JsonFields
  | .nil => .nil
  | .cons k v tl => .cons k (stableJson v) (stableFields tl)
end

/-- Source `toStableObject` on an object. -/
def toStableObject (fields : JsonFields) : JsonFields :=
  match stableJson (.obj fields) with
  | .obj fs => fs
  | _ => .nil

/-! ## Errors and core data model -/

/-- Structured stand-ins for the exceptions thrown by the source. -/
inductive JsErr where
  | missingRecoveryParam
  | invalidSignatureLength (got : Nat)
  | badKeyFormat (got : Nat)
  | unsupportedAlgorithm (alg : List Char)
  | notSupportedRecovery
  | rangeError
  | badEncoding
  | rpcError (code : Nat) (msg : List Char)
deriving DecidableEq

deriving instance DecidableEq for Except

/-- Source interface `EcdsaSignature`: `r`,`s` hex strings and an optional
recovery parameter (`none` models an absent/undefined field). -/
structure EcdsaSignature where
  r : List Char
  s : List Char
  recoveryParam : Option Nat
deriving DecidableEq

/-- Source `toJose`: writes the base16-decoded `r` at offset 0 and `s` at
offset 32 of a zeroed 64- or 65-byte buffer, appends the recovery byte when
`recoverable`, then base64url-encodes. -/
def toJose (sig : EcdsaSignature) (recoverable : Bool) : Except JsErr (List Char) :=
  let size := if recoverable then 65 else 64
  match hexDecode sig.r with
  | none => .error .badEncoding
  | some rB =>
    match uset (List.replicate size 0) rB 0 with
    | none => .error .rangeError
    | some jose1 =>
      match hexDecode sig.s with
      | none => .error .badEncoding
      | some sB =>
        match uset jose1 sB 32 with
        | none => .error .rangeError
        | some jose2 =>
          if recoverable then
            match sig.recoveryParam with
            | none => .error .missingRecoveryParam
            | some p => .ok (bytesToBase64url (listSet jose2 64 p))
          else .ok (bytesToBase64url jose2)

/-- Source `fromJose`. -/
def fromJose (signature : List Char) : Except JsErr EcdsaSignature :=
  match base64ToBytes signature with
  | none => .error .badEncoding
  | some signatureBytes =>
    if signatureBytes.length < 64 ∨ 65 < signatureBytes.length then
      .error (.invalidSignatureLength signatureBytes.length)
    else
      .ok ⟨bytesToHex (signatureBytes.take 32),
           bytesToHex ((signatureBytes.drop 32).take 32),
           if signatureBytes.length = 65 then signatureBytes[64]? else none⟩

/-- Source `leftpad`: `'0'.repeat(size - data.length)` throws a RangeError
when the count is negative, i.e. when the input is longer than the target. -/
def leftpad (data : List Char) (size : Nat) : Except JsErr (List Char) :=
  if data.length = size then .ok data
  else if size < data.length then .error .rangeError
  else .ok (List.replicate (size - data.length) '0' ++ data)

abbrev SignerInput := List Char ⊕ List Nat

abbrev SignerResult := EcdsaSignature ⊕ List Char

abbrev Signer := SignerInput → Except JsErr SignerResult

abbrev SignerAlgorithm := List Char → Signer → Except JsErr (List Char)

/-- Source `sha256` wrapper around the external `@stablelib/sha256` `hash`
primitive (`hashFn`): strings are UTF-8 encoded first. -/
def sha256 (hashFn : List Nat → List Nat) (payload : SignerInput) : List Nat :=
  hashFn (match payload with | .inl s => strBytes s | .inr b => b)

/-- Output of the external `elliptic` `keyPair.sign`: big-number `r`, `s`
and a recovery parameter. -/
structure ECSig where
  r : Nat
  s : Nat
  recoveryParam : Option Nat

/-- Source `ES256KSigner` (local signer): validates the 32-byte key, then
returns a signer closure that hashes, signs via the curve library
(`ecSign key digest`), left-pads `r`/`s` and JOSE-encodes. -/
def ES256KSigner (hashFn : List Nat → List Nat) (ecSign : List Nat → List Nat → ECSig)
    (privateKey : List Nat) (recoverable : Bool) : Except JsErr Signer :=
  if privateKey.length ≠ 32 then .error (.badKeyFormat privateKey.length)
  else .ok (fun data =>
    let sg := ecSign privateKey (sha256 hashFn data)
    match leftpad (natToHex sg.r) 64 with
    | .error e => .error e
    | .ok rp =>
      match leftpad (natToHex sg.s) 64 with
      | .error e => .error e
      | .ok sp =>
        match toJose ⟨rp, sp, sg.recoveryParam⟩ recoverable with
        | .error e => .error e
        | .ok j => .ok (.inr j))

/-- Source `ES256KSignerAlg`; the `instanceof`-style check on the signer
result is the match on the sum type. -/
def ES256KSignerAlg (recoverable : Bool) : SignerAlgorithm := fun payload signer =>
  match signer (.inl payload) with
  | .error e => .error e
  | .ok (.inl ecsig) => toJose ecsig recoverable
  | .ok (.inr s) =>
    if recoverable then
      match fromJose s with
      | .error e => .error e
      | .ok parsed =>
        match parsed.recoveryParam with
        | none => .error .notSupportedRecovery
        | some _ => .ok s
    else .ok s

/-- Source `algorithms` table: only `ES256K` is registered. -/
def algorithms : List (List Char × SignerAlgorithm) :=
  [("ES256K".toList, ES256KSignerAlg false)]

/-- Source `SignerAlg`. -/
def SignerAlg (alg : List Char) : Except JsErr SignerAlgorithm :=
  match algorithms.lookup alg with
  | some impl => .ok impl
  | none => .error (.unsupportedAlgorithm alg)

/-- Source `encodeBase64url`. -/
def encodeBase64url (s : List Char) : List Char := bytesToBase64url (strBytes s)

/-- Source `encodeSection`. -/
def encodeSection (j : Json) : List Char := encodeBase64url (jsonStringify j)

/-- The encoded payload of `createJWS`: a string payload is used verbatim,
anything else is canonical-JSON-encoded then base64url-encoded. -/
def encPayload : List Char ⊕ Json → List Char
  | .inl s => s
  | .inr j => encodeSection j

/-- The string used to index the `algorithms` table (`header.alg`). -/
def algValue (header : JsonFields) : List Char :=
  match header.lookup ("alg".toList) with
  | some v => jsToStr v
  | none => "undefined".toList

/-- Source `createJWS`. -/
def createJWS (payload : List Char ⊕ Json) (signer : Signer)
    (header : JsonFields) : Except JsErr (List Char) :=
  let header :=
    if jsFalsy (header.lookup ("alg".toList)) then
      jsSet header ("alg".toList) (.str ("ES256K".toList))
    else header
  let encodedPayload := encPayload payload
  let signingInput := encodeSection (.obj header) ++ '.' :: encodedPayload
  match SignerAlg (algValue header) with
  | .error e => .error e
  | .ok jwtSigner =>
    match jwtSigner signingInput signer with
    | .error e => .error e
    | .ok signature => .ok (signingInput ++ '.' :: signature)

/-- Source `encodeDID`: multicodec tag `0xe7`, varint byte `0x01`, the key
bytes, base58btc, `did:key:z`. -/
def encodeDID (publicKey : List Nat) : Except JsErr (List Char) :=
  let bytes := listSet (listSet (List.replicate (publicKey.length + 2) 0) 0 231) 1 1
  match uset bytes publicKey 2 with
  | none => .error .rangeError
  | some bytes2 => .ok ("did:key:z".toList ++ base58btc bytes2)

structure JwsSignatureEntry where
  protectedHeader : Option (List Char)
  signature : Option (List Char)
deriving DecidableEq

structure GeneralJWS where
  payload : Option (List Char)
  signatures : List JwsSignatureEntry
deriving DecidableEq

/-- Source `toGeneralJWS`: destructuring `jws.split('.')`, with missing
parts becoming undefined (`none`). -/
def toGeneralJWS (jws : List Char) : GeneralJWS :=
  let parts := splitOnChar '.' jws
  ⟨parts[1]?, [⟨parts[0]?, parts[2]?⟩]⟩

/-- The `kid` built in source `sign`: `` `${did}#${did.split(':')[2]}` ``,
where a missing part stringifies as "undefined". -/
def kidOf (did : List Char) : List Char :=
  did ++ '#' :: ((splitOnChar ':' did).getD 2 ("undefined".toList))

/-- The header built in source `sign`:
`toStableObject(Object.assign(protectedHeader, { kid, alg: 'ES256K' }))` —
caller-supplied `kid`/`alg` are always overwritten. -/
def mergedHeader (protectedHeader : JsonFields) (did : List Char) : JsonFields :=
  toStableObject
    (jsSet (jsSet protectedHeader ("kid".toList) (.str (kidOf did))) ("alg".toList)
      (.str ("ES256K".toList)))

/-- The payload as passed on by source `sign`: strings verbatim, objects
stabilised. -/
def stabPayload : List Char ⊕ Json → List Char ⊕ Json
  | .inl s => .inl s
  | .inr j => .inr (stableJson j)

/-- Source `sign` (local-key path). -/
def sign (hashFn : List Nat → List Nat) (ecSign : List Nat → List Nat → ECSig)
    (payload : List Char ⊕ Json) (did : List Char) (secretKey : List Nat)
    (protectedHeader : JsonFields) : Except JsErr (List Char) :=
  match ES256KSigner hashFn ecSign secretKey false with
  | .error e => .error e
  | .ok signer =>
    createJWS (stabPayload payload) signer (mergedHeader protectedHeader did)

structure Context where
  did : List Char
  secretKey : List Nat

structure CreateJWSParams where
  did : List Char
  payload : List Char ⊕ Json
  protectedHeader : Option JsonFields

structure GeneralJWSResult where
  jws : GeneralJWS
deriving DecidableEq

/-- Source `did_createJWS` handler. -/
def did_createJWS (hashFn : List Nat → List Nat) (ecSign : List Nat → List Nat → ECSig)
    (ctx : Context) (params : CreateJWSParams) : Except JsErr GeneralJWSResult :=
  let requestDid := (splitOnChar '#' params.did).headD []
  if requestDid ≠ ctx.did then .error (.rpcError 4100 ("Unknown DID: ".toList ++ ctx.did))
  else
    match sign hashFn ecSign params.payload ctx.did ctx.secretKey
        (params.protectedHeader.getD .nil) with
    | .error e => .error e
    | .ok jws => .ok ⟨toGeneralJWS jws⟩

/-- Components returned by the remote Lit signing service. -/
structure LitSig where
  r : List Char
  s : List Char
  recid : Nat

/-- Source `ES256KSignerWithLit`: `recoverable` is hardcoded `false`; the
remote response components are passed to `toJose` unpadded. -/
def ES256KSignerWithLit (hashFn : List Nat → List Nat)
    (litSign : List Nat → LitSig) : Signer := fun data =>
  let recoverable := false
  let sg := litSign (sha256 hashFn data)
  match toJose ⟨sg.r, sg.s, some sg.recid⟩ recoverable with
  | .error e => .error e
  | .ok j => .ok (.inr j)

/-! ## Spec-side predicates and concrete fixtures -/

/-- The character class `[1-9A-HJ-NP-Za-km-z]` of the spec's DID regex. -/
def isB58Class (c : Char) : Bool :=
  ('1' ≤ c && c ≤ '9') || ('A' ≤ c && c ≤ 'H') || ('J' ≤ c && c ≤ 'N') ||
    ('P' ≤ c && c ≤ 'Z') || ('a' ≤ c && c ≤ 'k') || ('m' ≤ c && c ≤ 'z')

/-- The spec's regex `did:key:z[1-9A-HJ-NP-Za-km-z]+` anchored at both ends. -/
def didKeyPat (s : List Char) : Bool :=
  (s.take 9 == "did:key:z".toList) && !(s.drop 9).isEmpty &&
    (s.drop 9).all isB58Class

/-- A concrete well-behaved signer: always returns a structured signature
with 32-byte `r` and `s`. -/
def signerC : Signer := fun _ =>
  .ok (.inl ⟨List.replicate 64 '0', List.replicate 64 '0', none⟩)

/-- A concrete stand-in for the SHA-256 primitive. -/
def hashC : List Nat → List Nat := fun _ => List.replicate 32 0

/-- A concrete stand-in for the elliptic library signing call. -/
def ecSignC : List Nat → List Nat → ECSig := fun _ _ => ⟨1, 2, some 0⟩

def keyC : List Nat := List.replicate 32 1

/-- Concrete stand-ins for the remote Lit signing service, differing only
in the recovery id. -/
def litSignC : List Nat → LitSig := fun _ => ⟨"ff".toList, "01".toList, 1⟩

def litSignC2 : List Nat → LitSig := fun _ => ⟨"ff".toList, "01".toList, 0⟩

def ctxC : Context := ⟨"did:key:zXYZ".toList, List.replicate 32 0⟩

def paramsBad : CreateJWSParams := ⟨"did:key:zABC#zABC".toList, .inl ("p".toList), none⟩

def paramsGood : CreateJWSParams := ⟨"did:key:zXYZ#zXYZ".toList, .inl ("p".toList), none⟩

/-- Does an invoked signer call return a structured `EcdsaSignature`? -/
def isStructuredOut : Except JsErr (Except JsErr SignerResult) → Bool
  | .ok (.ok (.inl _)) => true
  | _ => false

/-- Does an invoked signer call return a pre-encoded JOSE string? -/
def isStringOut : Except JsErr (Except JsErr SignerResult) → Bool
  | .ok (.ok (.inr _)) => true
  | _ => false

/-- The encoded default header produced by `createJWS` for an empty header. -/
def defaultHeaderEnc : List Char :=
  encodeSection (.obj (.cons ("alg".toList) (.str ("ES256K".toList)) .nil))

/-- The concrete JWS built in the C4 witness. -/
def c4js : List Char :=
  match createJWS (.inr (.obj .nil)) signerC .nil with
  | .ok js => js
  | .error _ => []

/-! ## General helper lemmas -/

theorem getD_mem_or_eq {α : Type} (l : List α) (n : Nat) (d : α) :
    l.getD n d ∈ l ∨ l.getD n d = d := by
  induction l generalizing n with
  | nil => right; simp
  | cons a tl ih =>
    cases n with
    | zero => left; simp
    | succ m =>
      rcases ih m with h | h
      · left
        simp only [List.getD_cons_succ]
        exact List.mem_cons_of_mem _ h
      · right
        simpa using h

theorem mapMod_of_lt {l : List Nat} (h : ∀ b ∈ l, b < 256) :
    l.map (fun b => b % 256) = l := by
  induction l with
  | nil => rfl
  | cons a tl ih =>
    simp only [List.map_cons]
    rw [Nat.mod_eq_of_lt (h a (by simp)), ih (fun b hb => h b (by simp [hb]))]

theorem findIdx_spec {l : List Char} {c : Char} {v : Nat} (d : Char)
    (h : l.findIdx? (fun x => x = c) = some v) : v < l.length ∧ l.getD v d = c := by
  rw [List.findIdx?_eq_some_iff_getElem] at h
  obtain ⟨hv, hp, _⟩ := h
  refine ⟨hv, ?_⟩
  rw [List.getD_eq_getElem?_getD, List.getElem?_eq_getElem hv]
  simpa using hp

/-! ## Hex codec lemmas -/

theorem hexVal_spec {c : Char} {v : Nat} (h : hexVal c = some v) :
    v < 16 ∧ hexChar v = c := by
  have hs := findIdx_spec '0' h
  exact ⟨by simpa using hs.1, hs.2⟩

theorem hexDecode_sound : ∀ {hs : List Char} {bs : List Nat}, hexDecode hs = some bs →
    (∀ b ∈ bs, b < 256) ∧ bytesToHex bs = hs ∧ hs.length = 2 * bs.length
  | [], bs => by
    intro h
    simp only [hexDecode, Option.some.injEq] at h
    subst h
    simp [bytesToHex]
  | [_], bs => by
    intro h
    simp [hexDecode] at h
  | c1 :: c2 :: rest, bs => by
    intro h
    simp only [hexDecode] at h
    cases h1 : hexVal c1 with
    | none => rw [h1] at h; simp at h
    | some v1 =>
      cases h2 : hexVal c2 with
      | none => rw [h1, h2] at h; simp at h
      | some v2 =>
        cases h3 : hexDecode rest with
        | none => rw [h1, h2, h3] at h; simp at h
        | some bs2 =>
          rw [h1, h2, h3] at h
          simp only [Option.some.injEq] at h
          subst h
          obtain ⟨hv1, hc1⟩ := hexVal_spec h1
          obtain ⟨hv2, hc2⟩ := hexVal_spec h2
          obtain ⟨ihlt, ihhex, ihlen⟩ := hexDecode_sound h3
          refine ⟨?_, ?_, ?_⟩
          · intro b hb
            rcases List.mem_cons.mp hb with hb | hb
            · subst hb; omega
            · exact ihlt b hb
          · simp only [bytesToHex, List.flatMap_cons] at ihhex ⊢
            have e1 : (v1 * 16 + v2) / 16 = v1 := by omega
            have e2 : (v1 * 16 + v2) % 16 = v2 := by omega
            rw [e1, e2, hc1, hc2, ihhex]
            rfl
          · simp only [List.length_cons, ihlen]
            omega

theorem hexDecode_exists : ∀ (hs : List Char), (∀ c ∈ hs, (hexVal c).isSome) →
    hs.length % 2 = 0 → ∃ bs, hexDecode hs = some bs
  | [] => by intro _ _; exact ⟨[], rfl⟩
  | [c] => by intro _ hl; simp at hl
  | c1 :: c2 :: rest => by
    intro hall hl
    have h1 : (hexVal c1).isSome := hall c1 (by simp)
    have h2 : (hexVal c2).isSome := hall c2 (by simp)
    obtain ⟨v1, hv1⟩ := Option.isSome_iff_exists.mp h1
    obtain ⟨v2, hv2⟩ := Option.isSome_iff_exists.mp h2
    obtain ⟨bs2, hbs2⟩ := hexDecode_exists rest
      (fun c hc => hall c (by simp [hc])) (by simp at hl; omega)
    refine ⟨(v1 * 16 + v2) :: bs2, ?_⟩
    simp only [hexDecode]
    rw [hv1, hv2, hbs2]

theorem isHex64_spec {r : List Char} (h : isHex64 r = true) :
    ∃ rb, hexDecode r = some rb ∧ rb.length = 32 ∧ (∀ b ∈ rb, b < 256) ∧
      bytesToHex rb = r := by
  simp only [isHex64, Bool.and_eq_true, beq_iff_eq, List.all_eq_true] at h
  obtain ⟨hlen, hall⟩ := h
  obtain ⟨bs, hbs⟩ := hexDecode_exists r (fun c hc => hall c hc) (by omega)
  obtain ⟨hlt, hhex, hlen2⟩ := hexDecode_sound hbs
  exact ⟨bs, hbs, by omega, hlt, hhex⟩

/-! ## Base64url codec lemmas -/

theorem b64Char_mem (n : Nat) : b64Char n ∈ b64Chars := by
  rcases getD_mem_or_eq b64Chars n 'A' with h | h
  · exact h
  · rw [b64Char, h]; decide

theorem b64Val_b64Char : ∀ v, v < 64 → b64Val (b64Char v) = some v := by decide

theorem bytesToBase64url_mem : ∀ (bs : List Nat) (c : Char),
    c ∈ bytesToBase64url bs → c ∈ b64Chars
  | [], c => by simp [bytesToBase64url]
  | [a], c => by
    intro hc
    simp only [bytesToBase64url, List.mem_cons, List.not_mem_nil, or_false] at hc
    rcases hc with h | h <;> (subst h; exact b64Char_mem _)
  | [a, b], c => by
    intro hc
    simp only [bytesToBase64url, List.mem_cons, List.not_mem_nil, or_false] at hc
    rcases hc with h | h | h <;> (subst h; exact b64Char_mem _)
  | a :: b :: d :: rest, c => by
    intro hc
    simp only [bytesToBase64url, List.mem_cons] at hc
    rcases hc with h | h | h | h | h
    · subst h; exact b64Char_mem _
    · subst h; exact b64Char_mem _
    · subst h; exact b64Char_mem _
    · subst h; exact b64Char_mem _
    · exact bytesToBase64url_mem rest c h

theorem normalize_of_mem : ∀ (s : List Char), (∀ c ∈ s, c ∈ b64Chars) →
    base64urlNormalize s = s := by
  have hall : ∀ c ∈ b64Chars, ¬c = '+' ∧ ¬c = '/' ∧ ¬c = '=' := by decide
  intro s h
  induction s with
  | nil => rfl
  | cons a tl ih =>
    obtain ⟨h1, h2, h3⟩ := hall a (h a (by simp))
    simp only [base64urlNormalize, List.map_cons, List.filter_cons, if_neg h1, if_neg h2]
    rw [if_pos]
    · have := ih (fun c hc => h c (by simp [hc]))
      simp only [base64urlNormalize] at this
      rw [this]
    · simpa using h3

theorem b64_decode_encode : ∀ (bs : List Nat), (∀ b ∈ bs, b < 256) →
    b64Decode (bytesToBase64url bs) = some bs
  | [] => by intro _; rfl
  | [a] => by
    intro h
    have ha : a < 256 := h a (by simp)
    simp only [bytesToBase64url, b64Decode]
    rw [b64Val_b64Char _ (by omega), b64Val_b64Char _ (by omega)]
    simp only [Option.some.injEq, List.cons.injEq, and_true]
    omega
  | [a, b] => by
    intro h
    have ha : a < 256 := h a (by simp)
    have hb : b < 256 := h b (by simp)
    simp only [bytesToBase64url, b64Decode]
    rw [b64Val_b64Char _ (by omega), b64Val_b64Char _ (by omega),
      b64Val_b64Char _ (by omega)]
    simp only [Option.some.injEq, List.cons.injEq, and_true]
    constructor <;> omega
  | a :: b :: d :: rest => by
    intro h
    have ha : a < 256 := h a (by simp)
    have hb : b < 256 := h b (by simp)
    have hd : d < 256 := h d (by simp)
    have ih := b64_decode_encode rest (fun x hx => h x (by simp [hx]))
    simp only [bytesToBase64url, b64Decode]
    rw [b64Val_b64Char _ (by omega), b64Val_b64Char _ (by omega),
      b64Val_b64Char _ (by omega), b64Val_b64Char _ (by omega), ih]
    simp only [Option.some.injEq, List.cons.injEq]
    refine ⟨by omega, by omega, by omega, trivial⟩

theorem b64_roundtrip (bs : List Nat) (h : ∀ b ∈ bs, b < 256) :
    base64ToBytes (bytesToBase64url bs) = some bs := by
  rw [base64ToBytes, normalize_of_mem _ (bytesToBase64url_mem bs)]
  exact b64_decode_encode bs h

theorem b64_no_dot {bs : List Nat} : '.' ∉ bytesToBase64url bs := by
  intro hc
  have := bytesToBase64url_mem bs '.' hc
  revert this
  decide

/-! ## UTF-8 lemmas -/

theorem utf8Char_lt (c : Char) : ∀ b ∈ utf8Char c, b < 256 := by
  have hv : c.toNat < 0xd800 ∨ (0xdfff < c.toNat ∧ c.toNat < 0x110000) := c.valid
  intro b hb
  simp only [utf8Char] at hb
  split at hb
  · simp only [List.mem_cons, List.not_mem_nil, or_false] at hb
    omega
  · split at hb
    · simp only [List.mem_cons, List.not_mem_nil, or_false] at hb
      omega
    · split at hb
      · simp only [List.mem_cons, List.not_mem_nil, or_false] at hb
        omega
      · simp only [List.mem_cons, List.not_mem_nil, or_false] at hb
        omega

theorem strBytes_lt (s : List Char) : ∀ b ∈ strBytes s, b < 256 := by
  intro b hb
  obtain ⟨c, _, hbc⟩ := List.mem_flatMap.mp hb
  exact utf8Char_lt c b hbc

/-! ## splitOnChar lemmas -/

theorem splitOnChar_ne_nil (sep : Char) : ∀ s, splitOnChar sep s ≠ []
  | [] => by simp [splitOnChar]
  | c :: rest => by
    simp only [splitOnChar]
    cases h : splitOnChar sep rest with
    | nil => simp
    | cons g gs =>
      by_cases hc : c = sep <;> simp [hc]

theorem splitOnChar_no_sep {sep : Char} : ∀ {s : List Char}, sep ∉ s →
    splitOnChar sep s = [s]
  | [] => by intro _; rfl
  | c :: rest => by
    intro h
    have hc : c ≠ sep := fun e => h (by rw [e]; exact List.mem_cons_self _ _)
    have ht := splitOnChar_no_sep (s := rest) (fun e => h (List.mem_cons_of_mem _ e))
    simp only [splitOnChar, ht]
    simp [hc]

theorem splitOnChar_append {sep : Char} : ∀ {A : List Char}, sep ∉ A →
    ∀ rest, splitOnChar sep (A ++ sep :: rest) = A :: splitOnChar sep rest
  | [] => by
    intro _ rest
    simp only [List.nil_append, splitOnChar]
    cases h : splitOnChar sep rest with
    | nil => exact absurd h (splitOnChar_ne_nil sep rest)
    | cons g gs => simp
  | a :: A => by
    intro h rest
    have ha : a ≠ sep := fun e => h (by rw [e]; exact List.mem_cons_self _ _)
    have ih := splitOnChar_append (A := A) (fun e => h (List.mem_cons_of_mem _ e)) rest
    have hstep : splitOnChar sep (a :: (A ++ sep :: rest)) =
        match splitOnChar sep (A ++ sep :: rest) with
        | [] => [[]]
        | g :: gs => if a = sep then [] :: g :: gs else (a :: g) :: gs := rfl
    rw [List.cons_append, hstep, ih]
    simp [ha]

/-! ## Base58 lemmas -/

theorem b58Char_mem (n : Nat) : b58Char n ∈ b58Chars := by
  rcases getD_mem_or_eq b58Chars n '1' with h | h
  · exact h
  · rw [b58Char, h]; decide

theorem natToB58Go_mem : ∀ (fuel n : Nat) (c : Char), c ∈ natToB58Go fuel n → c ∈ b58Chars
  | 0, n, c => by simp [natToB58Go]
  | fuel + 1, n, c => by
    intro hc
    simp only [natToB58Go] at hc
    split at hc
    · simp at hc
    · rcases List.mem_append.mp hc with h | h
      · exact natToB58Go_mem fuel (n / 58) c h
      · simp only [List.mem_cons, List.not_mem_nil, or_false] at h
        subst h
        exact b58Char_mem _

theorem natToB58_ne_nil {n : Nat} (h : 0 < n) : natToB58 n ≠ [] := by
  cases n with
  | zero => omega
  | succ m =>
    rw [natToB58, natToB58Go]
    simp

theorem foldl_mul_add_pos : ∀ (l : List Nat) (acc : Nat), 0 < acc →
    0 < l.foldl (fun a b => a * 256 + b) acc
  | [], acc => by intro h; simpa using h
  | x :: l, acc => by
    intro h
    simp only [List.foldl_cons]
    exact foldl_mul_add_pos l (acc * 256 + x) (by omega)

theorem bytesToNat_pos {b : Nat} (rest : List Nat) (h : 0 < b) :
    0 < bytesToNat (b :: rest) := by
  rw [bytesToNat, List.foldl_cons]
  exact foldl_mul_add_pos rest (0 * 256 + b) (by omega)

/-! ## uset and toJose evaluation lemmas -/

theorem uset_some {arr src : List Nat} {off : Nat} (h : off + src.length ≤ arr.length) :
    uset arr src off =
      some (arr.take off ++ src.map (fun b => b % 256) ++ arr.drop (off + src.length)) := by
  rw [uset, if_pos h]

theorem uset_head {t : Nat} {rb : List Nat} (hrl : rb.length ≤ 64 + t)
    (hrb : ∀ b ∈ rb, b < 256) :
    uset (List.replicate (64 + t) 0) rb 0 =
      some (rb ++ List.replicate (64 + t - rb.length) 0) := by
  rw [uset_some (by simpa using hrl), mapMod_of_lt hrb]
  simp [List.drop_replicate]

theorem uset_mid {t : Nat} {rb sb : List Nat} (hrl : rb.length ≤ 32) (hsl : sb.length ≤ 32)
    (hsb : ∀ b ∈ sb, b < 256) :
    uset (rb ++ List.replicate (64 + t - rb.length) 0) sb 32 =
      some (rb ++ List.replicate (32 - rb.length) 0 ++
        (sb ++ List.replicate (32 + t - sb.length) 0)) := by
  rw [uset_some (by simp; omega), mapMod_of_lt hsb]
  have e1 : (rb ++ List.replicate (64 + t - rb.length) 0).take 32 =
      rb ++ List.replicate (32 - rb.length) 0 := by
    conv_lhs => rw [show (32 : Nat) = rb.length + (32 - rb.length) by omega]
    rw [List.take_append, List.take_replicate]
    have hm : min (32 - rb.length) (64 + t - rb.length) = 32 - rb.length := by omega
    rw [hm]
  have e2 : (rb ++ List.replicate (64 + t - rb.length) 0).drop (32 + sb.length) =
      List.replicate (32 + t - sb.length) 0 := by
    conv_lhs =>
      rw [show 32 + sb.length = rb.length + (32 + sb.length - rb.length) by omega]
    rw [List.drop_append, List.drop_replicate]
    congr 1
    omega
  rw [e1, e2]
  simp [List.append_assoc]

theorem toJose_false_eval {r s : List Char} {rb sb : List Nat} (rp : Option Nat)
    (hr : hexDecode r = some rb) (hrl : rb.length ≤ 32)
    (hs : hexDecode s = some sb) (hsl : sb.length ≤ 32) :
    toJose ⟨r, s, rp⟩ false = .ok (bytesToBase64url
      (rb ++ List.replicate (32 - rb.length) 0 ++
        (sb ++ List.replicate (32 - sb.length) 0))) := by
  have hrb := (hexDecode_sound hr).1
  have hsb := (hexDecode_sound hs).1
  have e1 := uset_head (t := 0) (by omega) hrb
  have e2 := uset_mid (t := 0) hrl hsl hsb
  simp only [toJose, hr, hs, e1, e2, Bool.false_eq_true, if_false]

theorem toJose_true_none {r s : List Char} {rb sb : List Nat}
    (hr : hexDecode r = some rb) (hrl : rb.length ≤ 32)
    (hs : hexDecode s = some sb) (hsl : sb.length ≤ 32) :
    toJose ⟨r, s, none⟩ true = .error .missingRecoveryParam := by
  have hrb := (hexDecode_sound hr).1
  have hsb := (hexDecode_sound hs).1
  have e1 := uset_head (t := 1) (by omega) hrb
  have e2 := uset_mid (t := 1) hrl hsl hsb
  simp only [toJose, hr, hs, e1, e2, if_true]

theorem toJose_true_eval {r s : List Char} {rb sb : List Nat} (p : Nat)
    (hr : hexDecode r = some rb) (hrl : rb.length ≤ 32)
    (hs : hexDecode s = some sb) (hsl : sb.length ≤ 32) :
    toJose ⟨r, s, some p⟩ true = .ok (bytesToBase64url
      (rb ++ List.replicate (32 - rb.length) 0 ++
        (sb ++ List.replicate (32 - sb.length) 0) ++ [p % 256])) := by
  have hrb := (hexDecode_sound hr).1
  have hsb := (hexDecode_sound hs).1
  have e1 := uset_head (t := 1) (by omega) hrb
  have e2 := uset_mid (t := 1) hrl hsl hsb
  simp only [toJose, hr, hs, e1, e2, if_true]
  have e3 : sb ++ List.replicate (32 + 1 - sb.length) 0 =
      sb ++ List.replicate (32 - sb.length) 0 ++ [0] := by
    rw [show 32 + 1 - sb.length = (32 - sb.length) + 1 by omega, List.replicate_succ',
      List.append_assoc]
  rw [e3]
  have hlen : (rb ++ List.replicate (32 - rb.length) 0 ++
      (sb ++ List.replicate (32 - sb.length) 0)).length = 64 := by
    simp
    omega
  have e4 : (rb ++ List.replicate (32 - rb.length) 0 ++
        (sb ++ List.replicate (32 - sb.length) 0 ++ [0])).set 64 (p % 256) =
      rb ++ List.replicate (32 - rb.length) 0 ++
        (sb ++ List.replicate (32 - sb.length) 0) ++ [p % 256] := by
    rw [show rb ++ List.replicate (32 - rb.length) 0 ++
        (sb ++ List.replicate (32 - sb.length) 0 ++ [0]) =
      (rb ++ List.replicate (32 - rb.length) 0 ++
        (sb ++ List.replicate (32 - sb.length) 0)) ++ [0] by simp [List.append_assoc],
      ← hlen, List.set_append_right _ _ (Nat.le_refl _)]
    simp
  rw [listSet, e4]

/-- Shape of a successful `toJose`: always a base64url encoding of bytes
below 256. -/
theorem toJose_ok_shape {sig : EcdsaSignature} {recoverable : Bool} {out : List Char}
    (h : toJose sig recoverable = .ok out) :
    ∃ bytes, out = bytesToBase64url bytes := by
  cases recoverable with
  | false =>
    cases h1 : hexDecode sig.r with
    | none => simp only [toJose, h1] at h; exact Except.noConfusion h
    | some rB =>
      cases h2 : uset (List.replicate 64 0) rB 0 with
      | none =>
        simp only [toJose, h1, Bool.false_eq_true, if_false, h2] at h
        exact Except.noConfusion h
      | some jose1 =>
        cases h3 : hexDecode sig.s with
        | none =>
          simp only [toJose, h1, Bool.false_eq_true, if_false, h2, h3] at h
          exact Except.noConfusion h
        | some sB =>
          cases h4 : uset jose1 sB 32 with
          | none =>
            simp only [toJose, h1, Bool.false_eq_true, if_false, h2, h3, h4] at h
            exact Except.noConfusion h
          | some jose2 =>
            simp only [toJose, h1, Bool.false_eq_true, if_false, h2, h3, h4,
              Except.ok.injEq] at h
            exact ⟨jose2, h.symm⟩
  | true =>
    cases h1 : hexDecode sig.r with
    | none => simp only [toJose, h1] at h; exact Except.noConfusion h
    | some rB =>
      cases h2 : uset (List.replicate 65 0) rB 0 with
      | none =>
        simp only [toJose, h1, if_true, h2] at h
        exact Except.noConfusion h
      | some jose1 =>
        cases h3 : hexDecode sig.s with
        | none =>
          simp only [toJose, h1, if_true, h2, h3] at h
          exact Except.noConfusion h
        | some sB =>
          cases h4 : uset jose1 sB 32 with
          | none =>
            simp only [toJose, h1, if_true, h2, h3, h4] at h
            exact Except.noConfusion h
          | some jose2 =>
            cases h5 : sig.recoveryParam with
            | none =>
              simp only [toJose, h1, if_true, h2, h3, h4, h5] at h
              exact Except.noConfusion h
            | some p =>
              simp only [toJose, h1, if_true, h2, h3, h4, h5, Except.ok.injEq] at h
              exact ⟨listSet jose2 64 p, h.symm⟩

/-! ## JsonFields lemmas -/

theorem keyLe_refl : ∀ k, keyLe k k = true
  | [] => rfl
  | a :: as => by
    simp only [keyLe, lt_irrefl, if_false]
    exact keyLe_refl as

theorem lookup_insertField (k0 : List Char) (v0 : Json) (k : List Char) :
    ∀ fs, (insertField k0 v0 fs).lookup k =
      if k0 = k then some v0 else fs.lookup k
  | .nil => by simp [insertField, JsonFields.lookup]
  | .cons k1 v1 tl => by
    by_cases hle : keyLe k0 k1
    · simp [insertField, hle, JsonFields.lookup]
    · have hne : k0 ≠ k1 := fun e => hle (by rw [e]; exact keyLe_refl k1)
      simp only [insertField, hle, if_false, JsonFields.lookup,
        lookup_insertField k0 v0 k tl]
      by_cases h1 : k1 = k
      · subst h1
        simp [hne]
      · by_cases h0 : k0 = k <;> simp [h0, h1]

theorem lookup_sortFields (k : List Char) :
    ∀ fs, (sortFields fs).lookup k = fs.lookup k
  | .nil => rfl
  | .cons k0 v0 tl => by
    simp only [sortFields, lookup_insertField, lookup_sortFields k tl,
      JsonFields.lookup]

theorem lookup_stableFields (k : List Char) :
    ∀ fs, (stableFields fs).lookup k = (fs.lookup k).map stableJson
  | .nil => rfl
  | .cons k0 v0 tl => by
    simp only [stableFields, JsonFields.lookup, lookup_stableFields k tl]
    by_cases h : k0 = k <;> simp [h]

theorem lookup_toStableObject (k : List Char) (fs : JsonFields) :
    (toStableObject fs).lookup k = (fs.lookup k).map stableJson := by
  have : toStableObject fs = sortFields (stableFields fs) := rfl
  rw [this, lookup_sortFields, lookup_stableFields]

theorem lookup_jsSet_self (k : List Char) (v : Json) :
    ∀ fs, (jsSet fs k v).lookup k = some v
  | .nil => by simp [jsSet, JsonFields.lookup]
  | .cons k0 v0 tl => by
    by_cases h : k0 = k
    · simp [jsSet, h, JsonFields.lookup]
    · simp [jsSet, h, JsonFields.lookup, lookup_jsSet_self k v tl]

theorem lookup_jsSet_ne {k k2 : List Char} (v : Json) (hne : k ≠ k2) :
    ∀ fs, (jsSet fs k v).lookup k2 = fs.lookup k2
  | .nil => by simp [jsSet, JsonFields.lookup, hne]
  | .cons k0 v0 tl => by
    by_cases h : k0 = k
    · subst h
      simp [jsSet, JsonFields.lookup, hne]
    · simp [jsSet, h, JsonFields.lookup, lookup_jsSet_ne v hne tl]

/-! ## Claim theorems -/

/-- Claim C9: `leftpad("abc", 6) = "000abc"`, `leftpad("abcdef", 6) = "abcdef"`,
and for every input strictly longer than the target length `leftpad` fails
(the negative `'0'.repeat` count throws a RangeError) rather than returning
a string. -/
theorem claim_C9 :
    leftpad ("abc".toList) 6 = .ok ("000abc".toList) ∧
    leftpad ("abcdef".toList) 6 = .ok ("abcdef".toList) ∧
    ∀ (data : List Char) (size : Nat), size < data.length →
      leftpad data size = .error .rangeError := by
  refine ⟨by decide, by decide, ?_⟩
  intro data size h
  rw [leftpad, if_neg (by omega), if_pos h]

theorem claim_C9_witness :
    6 < ("abcdefg".toList).length ∧
    leftpad ("abcdefg".toList) 6 = .error .rangeError :=
  ⟨by decide, claim_C9.2.2 ("abcdefg".toList) 6 (by decide)⟩

/-- Claim C1, counterexample: on a compact string without three dot-separated
parts, `toGeneralJWS` does not fail with MalformedJWS (or at all) — it
returns a `GeneralJWS` whose missing fields are undefined. -/
theorem claim_C1_counterexample :
    toGeneralJWS ("ab".toList) = ⟨none, [⟨some ("ab".toList), none⟩]⟩ := by
  decide

/-- Claim C1 (amended): `toGeneralJWS` never fails; for a string with exactly
three dot-separated parts it returns a `GeneralJWS` whose payload is the
middle part and whose single signature entry carries the first part as
protected and the third as signature; for any other input it still returns
a single-entry `GeneralJWS`, with missing parts undefined. -/
theorem claim_C1 :
    (∀ (s a b c : List Char), splitOnChar '.' s = [a, b, c] →
      toGeneralJWS s = ⟨some b, [⟨some a, some c⟩]⟩) ∧
    (∀ s : List Char, (toGeneralJWS s).signatures.length = 1) := by
  constructor
  · intro s a b c h
    simp only [toGeneralJWS, h]
    rfl
  · intro s
    rfl

theorem claim_C1_witness :
    splitOnChar '.' ("a.b.c".toList) = ["a".toList, "b".toList, "c".toList] ∧
    toGeneralJWS ("a.b.c".toList) =
      ⟨some ("b".toList), [⟨some ("a".toList), some ("c".toList)⟩]⟩ :=
  ⟨by decide, claim_C1.1 _ _ _ _ (by decide)⟩

/-- Claim C7: `fromJose` fails with InvalidSignatureLength for every input
whose decoded byte length is anything other than 64 or 65; for length 64 it
returns `r` and `s` only, and for length 65 it additionally returns the
trailing byte as the recovery parameter. -/
theorem claim_C7 (sigStr : List Char) (bytes : List Nat)
    (h : base64ToBytes sigStr = some bytes) :
    ((bytes.length ≠ 64 ∧ bytes.length ≠ 65) →
      fromJose sigStr = .error (.invalidSignatureLength bytes.length)) ∧
    (bytes.length = 64 → fromJose sigStr = .ok ⟨bytesToHex (bytes.take 32),
      bytesToHex ((bytes.drop 32).take 32), none⟩) ∧
    (bytes.length = 65 → fromJose sigStr = .ok ⟨bytesToHex (bytes.take 32),
      bytesToHex ((bytes.drop 32).take 32), bytes[64]?⟩ ∧ (bytes[64]?).isSome) := by
  refine ⟨?_, ?_, ?_⟩
  · intro hne
    obtain ⟨h1, h2⟩ := hne
    simp only [fromJose, h]
    rw [if_pos (by omega)]
  · intro h1
    simp only [fromJose, h]
    rw [if_neg (by omega), if_neg (by omega)]
  · intro h1
    constructor
    · simp only [fromJose, h]
      rw [if_neg (by omega), if_pos h1]
    · rw [List.getElem?_eq_getElem (by omega)]
      simp

theorem claim_C7_witness :
    fromJose ([] : List Char) = .error (.invalidSignatureLength 0) ∧
    fromJose ("AA".toList) = .error (.invalidSignatureLength 1) ∧
    fromJose (List.replicate 84 'A') = .error (.invalidSignatureLength 63) ∧
    fromJose (List.replicate 88 'A') = .error (.invalidSignatureLength 66) ∧
    fromJose (List.replicate 86 'A') =
      .ok ⟨List.replicate 64 '0', List.replicate 64 '0', none⟩ ∧
    fromJose (List.replicate 87 'A') =
      .ok ⟨List.replicate 64 '0', List.replicate 64 '0', some 0⟩ :=
  ⟨(claim_C7 [] [] (by decide)).1 (by decide),
   (claim_C7 ("AA".toList) (List.replicate 1 0) (by decide)).1 (by decide),
   (claim_C7 (List.replicate 84 'A') (List.replicate 63 0) (by decide)).1 (by decide),
   (claim_C7 (List.replicate 88 'A') (List.replicate 66 0) (by decide)).1 (by decide),
   by
     have := (claim_C7 (List.replicate 86 'A') (List.replicate 64 0) (by decide)).2.1
       (by decide)
     rw [this]
     decide,
   by
     have := ((claim_C7 (List.replicate 87 'A') (List.replicate 65 0) (by decide)).2.2
       (by decide)).1
     rw [this]
     decide⟩

/-- Claim C6: with `r`,`s` decoding to 32 bytes, `toJose` with
`recoverable = true` fails with MissingRecoveryParam exactly when the
recovery parameter is absent; when present (a byte) it produces the 65-byte
encoding with the recovery byte at offset 64; with `recoverable = false` it
produces the 64-byte encoding with `r` at offset 0 and `s` at offset 32. -/
theorem claim_C6 (r s : List Char) (rp : Option Nat) (rb sb : List Nat)
    (hr : hexDecode r = some rb) (hrl : rb.length = 32)
    (hs : hexDecode s = some sb) (hsl : sb.length = 32) :
    (toJose ⟨r, s, rp⟩ true = .error .missingRecoveryParam ↔ rp = none) ∧
    (∀ p, rp = some p → p < 256 →
      toJose ⟨r, s, rp⟩ true = .ok (bytesToBase64url (rb ++ sb ++ [p])) ∧
      (rb ++ sb ++ [p]).length = 65 ∧ (rb ++ sb ++ [p])[64]? = some p) ∧
    (toJose ⟨r, s, rp⟩ false = .ok (bytesToBase64url (rb ++ sb)) ∧
      (rb ++ sb).length = 64 ∧ (rb ++ sb).take 32 = rb ∧ (rb ++ sb).drop 32 = sb) := by
  refine ⟨⟨?_, ?_⟩, ?_, ?_, ?_, ?_, ?_⟩
  · intro h
    cases rp with
    | none => rfl
    | some p =>
      rw [toJose_true_eval p hr (by omega) hs (by omega)] at h
      exact Except.noConfusion h
  · intro h
    subst h
    exact toJose_true_none hr (by omega) hs (by omega)
  · intro p hp hplt
    subst hp
    refine ⟨?_, ?_, ?_⟩
    · rw [toJose_true_eval p hr (by omega) hs (by omega)]
      simp [hrl, hsl, Nat.mod_eq_of_lt hplt]
    · simp [hrl, hsl]
    · rw [List.getElem?_append_right (by simp [hrl, hsl])]
      simp [hrl, hsl]
  · rw [toJose_false_eval rp hr (by omega) hs (by omega)]
    simp [hrl, hsl]
  · simp [hrl, hsl]
  · rw [List.take_left' hrl]
  · rw [List.drop_left' hrl]

theorem claim_C6_witness :
    hexDecode (List.replicate 64 '0') = some (List.replicate 32 0) ∧
    toJose ⟨List.replicate 64 '0', List.replicate 64 '0', none⟩ true =
      .error .missingRecoveryParam ∧
    toJose ⟨List.replicate 64 '0', List.replicate 64 '0', some 1⟩ true =
      .ok (bytesToBase64url (List.replicate 32 0 ++ List.replicate 32 0 ++ [1])) ∧
    toJose ⟨List.replicate 64 '0', List.replicate 64 '0', some 1⟩ false =
      .ok (bytesToBase64url (List.replicate 32 0 ++ List.replicate 32 0)) :=
  ⟨by decide,
   (claim_C6 (List.replicate 64 '0') (List.replicate 64 '0') none
     (List.replicate 32 0) (List.replicate 32 0)
     (by decide) (by decide) (by decide) (by decide)).1.mpr rfl,
   ((claim_C6 (List.replicate 64 '0') (List.replicate 64 '0') (some 1)
     (List.replicate 32 0) (List.replicate 32 0)
     (by decide) (by decide) (by decide) (by decide)).2.1 1 rfl (by decide)).1,
   (claim_C6 (List.replicate 64 '0') (List.replicate 64 '0') (some 1)
     (List.replicate 32 0) (List.replicate 32 0)
     (by decide) (by decide) (by decide) (by decide)).2.2.1⟩

/-- Claim C2: round trip — for every EcdsaSignature with 32-byte-representable
(64 lowercase hex) `r`,`s` and recovery parameter 0 or 1,
`fromJose (toJose sig true) = sig`. -/
theorem claim_C2 (r s : List Char) (p : Nat)
    (hr : isHex64 r = true) (hs : isHex64 s = true) (hp : p = 0 ∨ p = 1) :
    (toJose ⟨r, s, some p⟩ true).bind fromJose = .ok ⟨r, s, some p⟩ := by
  obtain ⟨rb, hrd, hrl, hrlt, hrhex⟩ := isHex64_spec hr
  obtain ⟨sb, hsd, hsl, hslt, hshex⟩ := isHex64_spec hs
  have hplt : p < 256 := by omega
  rw [toJose_true_eval p hrd (by omega) hsd (by omega)]
  have hsimp : rb ++ List.replicate (32 - rb.length) 0 ++
      (sb ++ List.replicate (32 - sb.length) 0) ++ [p % 256] = rb ++ sb ++ [p] := by
    simp [hrl, hsl, Nat.mod_eq_of_lt hplt]
  rw [hsimp]
  show fromJose (bytesToBase64url (rb ++ sb ++ [p])) = _
  have hlt : ∀ b ∈ rb ++ sb ++ [p], b < 256 := by
    intro b hb
    rcases List.mem_append.mp hb with hb | hb
    · rcases List.mem_append.mp hb with hb | hb
      · exact hrlt b hb
      · exact hslt b hb
    · simp only [List.mem_cons, List.not_mem_nil, or_false] at hb
      omega
  have hdec := b64_roundtrip _ hlt
  have hlen : (rb ++ sb ++ [p]).length = 65 := by simp [hrl, hsl]
  simp only [fromJose, hdec]
  rw [if_neg (by omega), if_pos hlen]
  have htake : (rb ++ sb ++ [p]).take 32 = rb := by
    rw [List.append_assoc, List.take_left' hrl]
  have hdrop : ((rb ++ sb ++ [p]).drop 32).take 32 = sb := by
    rw [List.append_assoc, List.drop_left' hrl, List.take_left' hsl]
  have hget : (rb ++ sb ++ [p])[64]? = some p := by
    rw [List.getElem?_append_right (by simp [hrl, hsl])]
    simp [hrl, hsl]
  rw [htake, hdrop, hget, hrhex, hshex]

theorem claim_C2_witness :
    isHex64 (List.replicate 64 '0') = true ∧
    (toJose ⟨List.replicate 64 '0', List.replicate 64 'a', some 1⟩ true).bind fromJose =
      .ok ⟨List.replicate 64 '0', List.replicate 64 'a', some 1⟩ :=
  ⟨by decide,
   claim_C2 (List.replicate 64 '0') (List.replicate 64 'a') 1
     (by decide) (by decide) (Or.inr rfl)⟩

/-- The non-recoverable branch of `toJose` never reads the recovery field. -/
theorem toJose_false_irrel (r s : List Char) (rp1 rp2 : Option Nat) :
    toJose ⟨r, s, rp1⟩ false = toJose ⟨r, s, rp2⟩ false := by
  simp only [toJose, Bool.false_eq_true, if_false]

/-- Claim C10: the Lit-backed signer always produces a 64-byte
non-recoverable JOSE signature — `recoverable` is hardcoded false, the
remote `recid` is discarded (the output is independent of it), and the
remote `r`/`s` hex go into the JOSE encoding without leftpad
normalisation. -/
theorem claim_C10 (hashFn : List Nat → List Nat) (litSign litSign2 : List Nat → LitSig)
    (data : SignerInput) (rb sb : List Nat)
    (hr : hexDecode (litSign (sha256 hashFn data)).r = some rb) (hrl : rb.length ≤ 32)
    (hs : hexDecode (litSign (sha256 hashFn data)).s = some sb) (hsl : sb.length ≤ 32) :
    ES256KSignerWithLit hashFn litSign data =
      (toJose ⟨(litSign (sha256 hashFn data)).r, (litSign (sha256 hashFn data)).s,
        some (litSign (sha256 hashFn data)).recid⟩ false).map .inr ∧
    ES256KSignerWithLit hashFn litSign data = .ok (.inr (bytesToBase64url
      (rb ++ List.replicate (32 - rb.length) 0 ++
        (sb ++ List.replicate (32 - sb.length) 0)))) ∧
    (rb ++ List.replicate (32 - rb.length) 0 ++
      (sb ++ List.replicate (32 - sb.length) 0)).length = 64 ∧
    ((litSign2 (sha256 hashFn data)).r = (litSign (sha256 hashFn data)).r →
      (litSign2 (sha256 hashFn data)).s = (litSign (sha256 hashFn data)).s →
      ES256KSignerWithLit hashFn litSign2 data = ES256KSignerWithLit hashFn litSign data) := by
  refine ⟨?_, ?_, ?_, ?_⟩
  · cases h : toJose ⟨(litSign (sha256 hashFn data)).r, (litSign (sha256 hashFn data)).s,
        some (litSign (sha256 hashFn data)).recid⟩ false with
    | error e => simp [ES256KSignerWithLit, h, Except.map]
    | ok j => simp [ES256KSignerWithLit, h, Except.map]
  · simp only [ES256KSignerWithLit,
      toJose_false_eval (some (litSign (sha256 hashFn data)).recid) hr hrl hs hsl]
  · simp
    omega
  · intro h1 h2
    have he : toJose ⟨(litSign2 (sha256 hashFn data)).r, (litSign2 (sha256 hashFn data)).s,
        some (litSign2 (sha256 hashFn data)).recid⟩ false =
      toJose ⟨(litSign (sha256 hashFn data)).r, (litSign (sha256 hashFn data)).s,
        some (litSign (sha256 hashFn data)).recid⟩ false := by
      rw [h1, h2]
      exact toJose_false_irrel _ _ _ _
    simp only [ES256KSignerWithLit, he]

theorem claim_C10_witness :
    ES256KSignerWithLit hashC litSignC (.inl ("msg".toList)) =
      .ok (.inr (bytesToBase64url ([255] ++ List.replicate 31 0 ++
        ([1] ++ List.replicate 31 0)))) ∧
    ([255] ++ List.replicate 31 0 ++ ([1] ++ List.replicate 31 0)).length = 64 ∧
    ES256KSignerWithLit hashC litSignC2 (.inl ("msg".toList)) =
      ES256KSignerWithLit hashC litSignC (.inl ("msg".toList)) :=
  ⟨(claim_C10 hashC litSignC litSignC2 (.inl ("msg".toList)) [255] [1]
     (by decide) (by decide) (by decide) (by decide)).2.1,
   (claim_C10 hashC litSignC litSignC2 (.inl ("msg".toList)) [255] [1]
     (by decide) (by decide) (by decide) (by decide)).2.2.1,
   (claim_C10 hashC litSignC litSignC2 (.inl ("msg".toList)) [255] [1]
     (by decide) (by decide) (by decide) (by decide)).2.2.2 (by decide) (by decide)⟩

/-- Claim C8: `encodeDID` prefixes the key with bytes `0xE7 0x01`,
base58btc-encodes, and prefixes `did:key:z`; the result matches
`did:key:z[1-9A-HJ-NP-Za-km-z]+` (and, being a pure function of the key, is
deterministic). -/
theorem claim_C8 (pk : List Nat) (h : ∀ b ∈ pk, b < 256) :
    encodeDID pk = .ok ("did:key:z".toList ++ base58btc (231 :: 1 :: pk)) ∧
    didKeyPat ("did:key:z".toList ++ base58btc (231 :: 1 :: pk)) = true := by
  have hb : listSet (listSet (List.replicate (pk.length + 2) 0) 0 231) 1 1 =
      231 :: 1 :: List.replicate pk.length 0 := by
    simp [listSet, List.replicate_succ]
  have huset : uset (listSet (listSet (List.replicate (pk.length + 2) 0) 0 231) 1 1)
      pk 2 = some (231 :: 1 :: pk) := by
    have hle : (2 : Nat) + pk.length ≤ (231 :: 1 :: List.replicate pk.length 0).length := by
      simp only [List.length_cons, List.length_replicate]
      omega
    rw [hb, uset_some hle]
    rw [mapMod_of_lt h]
    simp [List.drop_replicate]
    omega
  constructor
  · simp only [encodeDID, huset]
  · rw [didKeyPat]
    have h9 : ("did:key:z".toList ++ base58btc (231 :: 1 :: pk)).take 9 =
        "did:key:z".toList := List.take_left' (by decide)
    have h9d : ("did:key:z".toList ++ base58btc (231 :: 1 :: pk)).drop 9 =
        base58btc (231 :: 1 :: pk) := List.drop_left' (by decide)
    rw [h9, h9d]
    have hlz : base58btc (231 :: 1 :: pk) =
        natToB58 (bytesToNat (231 :: 1 :: pk)) := by
      simp [base58btc, lzCount]
    have hne : natToB58 (bytesToNat (231 :: 1 :: pk)) ≠ [] :=
      natToB58_ne_nil (bytesToNat_pos _ (by omega))
    have hall : ∀ c ∈ natToB58 (bytesToNat (231 :: 1 :: pk)), isB58Class c = true := by
      have hcls : ∀ c2 ∈ b58Chars, isB58Class c2 = true := by decide
      intro c hc
      exact hcls c (natToB58Go_mem _ _ c hc)
    rw [hlz]
    simp [List.isEmpty_iff, hne, List.all_eq_true]
    exact hall

theorem claim_C8_witness :
    (∀ b ∈ [2, 171], b < 256) ∧
    encodeDID [2, 171] = .ok ("did:key:z".toList ++ base58btc [231, 1, 2, 171]) ∧
    didKeyPat ("did:key:z".toList ++ base58btc [231, 1, 2, 171]) = true :=
  ⟨by decide, (claim_C8 [2, 171] (by decide)).1, (claim_C8 [2, 171] (by decide)).2⟩

/-- Claim C3, counterexample: for a valid 32-byte key, the signer returned
by `ES256KSigner` does not return the structured `EcdsaSignature` — it
returns the pre-encoded JOSE string (`toJose` output). -/
theorem claim_C3_counterexample :
    isStructuredOut ((ES256KSigner hashC ecSignC keyC false).map
      (fun f => f (.inl ("msg".toList)))) = false ∧
    isStringOut ((ES256KSigner hashC ecSignC keyC false).map
      (fun f => f (.inl ("msg".toList)))) = true :=
  ⟨rfl, rfl⟩

/-- Claim C3 (amended): `ES256KSigner` fails with BadKeyFormat for every
private key whose byte length is not exactly 32; for a valid key its sign
operation hashes the message with SHA-256, signs over secp256k1 via the
curve library, left-pads `r` and `s` to 32 bytes each, and returns the
base64url JOSE encoding of the structured signature (not the structure
itself). -/
theorem claim_C3 (hashFn : List Nat → List Nat) (ecSign : List Nat → List Nat → ECSig)
    (recoverable : Bool) :
    (∀ key : List Nat, key.length ≠ 32 →
      ES256KSigner hashFn ecSign key recoverable = .error (.badKeyFormat key.length)) ∧
    (∀ (key : List Nat) (data : SignerInput), key.length = 32 →
      ∃ signer, ES256KSigner hashFn ecSign key recoverable = .ok signer ∧
        signer data =
          ((leftpad (natToHex (ecSign key (sha256 hashFn data)).r) 64).bind (fun rp =>
            (leftpad (natToHex (ecSign key (sha256 hashFn data)).s) 64).bind (fun sp =>
              toJose ⟨rp, sp, (ecSign key (sha256 hashFn data)).recoveryParam⟩
                recoverable))).map .inr) := by
  constructor
  · intro key hk
    rw [ES256KSigner, if_pos hk]
  · intro key data hk
    cases hsig : ES256KSigner hashFn ecSign key recoverable with
    | error e =>
      rw [ES256KSigner, if_neg (by omega)] at hsig
      exact Except.noConfusion hsig
    | ok signer =>
      refine ⟨signer, rfl, ?_⟩
      rw [ES256KSigner, if_neg (by omega)] at hsig
      injection hsig with hfun
      subst hfun
      cases h1 : leftpad (natToHex (ecSign key (sha256 hashFn data)).r) 64 with
      | error e => simp [h1, Except.bind, Except.map]
      | ok rp =>
        cases h2 : leftpad (natToHex (ecSign key (sha256 hashFn data)).s) 64 with
        | error e => simp [h1, h2, Except.bind, Except.map]
        | ok sp =>
          cases h3 : toJose ⟨rp, sp, (ecSign key (sha256 hashFn data)).recoveryParam⟩
              recoverable with
          | error e => simp [h1, h2, h3, Except.bind, Except.map]
          | ok j => simp [h1, h2, h3, Except.bind, Except.map]

theorem claim_C3_witness :
    keyC.length = 32 ∧
    (∃ signer, ES256KSigner hashC ecSignC keyC false = .ok signer ∧
      signer (.inl ("msg".toList)) =
        ((leftpad (natToHex (ecSignC keyC (sha256 hashC (.inl ("msg".toList)))).r) 64).bind
          (fun rp =>
            (leftpad (natToHex (ecSignC keyC (sha256 hashC (.inl ("msg".toList)))).s)
              64).bind (fun sp =>
              toJose ⟨rp, sp,
                (ecSignC keyC (sha256 hashC (.inl ("msg".toList)))).recoveryParam⟩
                false))).map .inr) ∧
    ([] : List Nat).length ≠ 32 ∧
    ES256KSigner hashC ecSignC [] false = .error (.badKeyFormat 0) :=
  ⟨by decide,
   (claim_C3 hashC ecSignC false).2 keyC (.inl ("msg".toList)) (by decide),
   by decide,
   (claim_C3 hashC ecSignC false).1 [] (by decide)⟩

theorem mergedHeader_alg (ph : JsonFields) (did : List Char) :
    (mergedHeader ph did).lookup ("alg".toList) = some (.str ("ES256K".toList)) := by
  rw [mergedHeader, lookup_toStableObject, lookup_jsSet_self]
  rfl

theorem mergedHeader_kid (ph : JsonFields) (did : List Char) :
    (mergedHeader ph did).lookup ("kid".toList) = some (.str (kidOf did)) := by
  rw [mergedHeader, lookup_toStableObject, lookup_jsSet_ne _ (by decide),
    lookup_jsSet_self]
  rfl

/-- Claim C5: `did_createJWS` fails with RPC error 4100 (UnknownDID) when
the DID portion of `params.did` before any `#` differs from the context's
DID; when it matches it signs `params.payload` under the merged header in
which `kid` and `alg` are force-set, returning the wrapped GeneralJWS. -/
theorem claim_C5 (hashFn : List Nat → List Nat) (ecSign : List Nat → List Nat → ECSig)
    (ctx : Context) (params : CreateJWSParams) :
    ((splitOnChar '#' params.did).headD [] ≠ ctx.did →
      did_createJWS hashFn ecSign ctx params =
        .error (.rpcError 4100 ("Unknown DID: ".toList ++ ctx.did))) ∧
    ((splitOnChar '#' params.did).headD [] = ctx.did → ctx.secretKey.length = 32 →
      ∃ signer, ES256KSigner hashFn ecSign ctx.secretKey false = .ok signer ∧
        did_createJWS hashFn ecSign ctx params =
          (createJWS (stabPayload params.payload) signer
            (mergedHeader (params.protectedHeader.getD .nil) ctx.did)).map
            (fun jws => ⟨toGeneralJWS jws⟩) ∧
        (mergedHeader (params.protectedHeader.getD .nil) ctx.did).lookup
          ("alg".toList) = some (.str ("ES256K".toList)) ∧
        (mergedHeader (params.protectedHeader.getD .nil) ctx.did).lookup
          ("kid".toList) = some (.str (kidOf ctx.did))) := by
  constructor
  · intro h
    simp only [did_createJWS, if_pos h]
  · intro h hk
    cases hsig : ES256KSigner hashFn ecSign ctx.secretKey false with
    | error e =>
      rw [ES256KSigner, if_neg (by omega)] at hsig
      exact Except.noConfusion hsig
    | ok signer =>
      refine ⟨signer, rfl, ?_, mergedHeader_alg _ _, mergedHeader_kid _ _⟩
      simp only [did_createJWS, if_neg (not_not_intro h), sign, hsig]
      cases hc : createJWS (stabPayload params.payload) signer
          (mergedHeader (params.protectedHeader.getD .nil) ctx.did) with
      | error e => simp [hc, Except.map]
      | ok jws => simp [hc, Except.map]

theorem claim_C5_witness :
    did_createJWS hashC ecSignC ctxC paramsBad =
      .error (.rpcError 4100 ("Unknown DID: ".toList ++ ctxC.did)) ∧
    (∃ signer, ES256KSigner hashC ecSignC ctxC.secretKey false = .ok signer ∧
      did_createJWS hashC ecSignC ctxC paramsGood =
        (createJWS (stabPayload paramsGood.payload) signer
          (mergedHeader (paramsGood.protectedHeader.getD .nil) ctxC.did)).map
          (fun jws => ⟨toGeneralJWS jws⟩) ∧
      (mergedHeader (paramsGood.protectedHeader.getD .nil) ctxC.did).lookup
        ("alg".toList) = some (.str ("ES256K".toList)) ∧
      (mergedHeader (paramsGood.protectedHeader.getD .nil) ctxC.did).lookup
        ("kid".toList) = some (.str (kidOf ctxC.did))) :=
  ⟨(claim_C5 hashC ecSignC ctxC paramsBad).1 (by decide),
   (claim_C5 hashC ecSignC ctxC paramsGood).2 (by decide) (by decide)⟩

/-- Claim C4, counterexample: `createJWS` with an empty header does not
return a string with exactly two '.' separators for every payload — a
string payload containing '.' is embedded verbatim, yielding three
separators. -/
theorem claim_C4_counterexample :
    (createJWS (.inl ("a.b".toList)) signerC .nil).map (fun js => js.count '.') =
      .ok 3 ∧
    (createJWS (.inl ("a.b".toList)) signerC .nil).map (fun js => js.count '.') ≠
      .ok 2 := by
  constructor
  · rfl
  · decide

/-- Claim C4 (amended): for every payload whose compact form contains no '.'
(in particular every JSON-object payload) and every signer returning
structured signatures, `createJWS` with an empty header defaults `alg` to
ES256K, the returned compact string has exactly two '.' separators, and
`toGeneralJWS` on it yields a GeneralJWS whose `signatures[0].protected`
base64url-decodes to the JSON `\x7b"alg":"ES256K"\x7d`. -/
theorem claim_C4 (payload : List Char ⊕ Json) (signer : Signer) (js : List Char)
    (hsig : ∀ d out, signer d = .ok out → ∃ e, out = .inl e)
    (hpay : ∀ s0, payload = .inl s0 → '.' ∉ s0)
    (hok : createJWS payload signer .nil = .ok js) :
    js.count '.' = 2 ∧
    (toGeneralJWS js).payload = some (encPayload payload) ∧
    (toGeneralJWS js).signatures.map (fun e => e.protectedHeader) =
      [some defaultHeaderEnc] ∧
    (toGeneralJWS js).signatures.map (fun e => (e.signature).isSome) = [true] ∧
    base64ToBytes defaultHeaderEnc = some (strBytes (jsonStringify
      (.obj (.cons ("alg".toList) (.str ("ES256K".toList)) .nil)))) := by
  have hred : createJWS payload signer .nil =
      match ES256KSignerAlg false (defaultHeaderEnc ++ '.' :: encPayload payload)
          signer with
      | .error e => .error e
      | .ok s => .ok ((defaultHeaderEnc ++ '.' :: encPayload payload) ++ '.' :: s) :=
    rfl
  rw [hred] at hok
  cases halg : ES256KSignerAlg false (defaultHeaderEnc ++ '.' :: encPayload payload)
      signer with
  | error e => rw [halg] at hok; exact Except.noConfusion hok
  | ok sigstr =>
    rw [halg] at hok
    injection hok with hjs
    subst hjs
    have hshape : ∃ bytes, sigstr = bytesToBase64url bytes := by
      cases hs0 : signer (.inl (defaultHeaderEnc ++ '.' :: encPayload payload)) with
      | error e =>
        simp only [ES256KSignerAlg, hs0] at halg
        exact Except.noConfusion halg
      | ok out =>
        obtain ⟨esig, rfl⟩ := hsig _ _ hs0
        simp only [ES256KSignerAlg, hs0] at halg
        exact toJose_ok_shape halg
    obtain ⟨bytes, rfl⟩ := hshape
    have hdr_nd : '.' ∉ defaultHeaderEnc := b64_no_dot
    have hp_nd : '.' ∉ encPayload payload := by
      cases payload with
      | inl s0 => exact hpay s0 rfl
      | inr j => exact b64_no_dot
    have hs_nd : '.' ∉ bytesToBase64url bytes := b64_no_dot
    have hjs_eq : (defaultHeaderEnc ++ '.' :: encPayload payload) ++
        '.' :: bytesToBase64url bytes =
        defaultHeaderEnc ++ '.' :: (encPayload payload ++ '.' :: bytesToBase64url bytes) := by
      simp [List.append_assoc]
    have hsplit : splitOnChar '.' ((defaultHeaderEnc ++ '.' :: encPayload payload) ++
        '.' :: bytesToBase64url bytes) =
        [defaultHeaderEnc, encPayload payload, bytesToBase64url bytes] := by
      rw [hjs_eq, splitOnChar_append hdr_nd, splitOnChar_append hp_nd,
        splitOnChar_no_sep hs_nd]
    refine ⟨?_, ?_, ?_, ?_, ?_⟩
    · rw [hjs_eq, List.count_append, List.count_cons_self, List.count_append,
        List.count_cons_self, List.count_eq_zero.mpr hdr_nd,
        List.count_eq_zero.mpr hp_nd, List.count_eq_zero.mpr hs_nd]
    · simp only [toGeneralJWS, hsplit]
      rfl
    · simp only [toGeneralJWS, hsplit]
      rfl
    · simp only [toGeneralJWS, hsplit]
      rfl
    · exact b64_roundtrip _ (strBytes_lt _)

theorem claim_C4_witness :
    c4js.count '.' = 2 ∧
    (toGeneralJWS c4js).payload = some (encPayload (.inr (.obj .nil))) ∧
    (toGeneralJWS c4js).signatures.map (fun e => e.protectedHeader) =
      [some defaultHeaderEnc] ∧
    (toGeneralJWS c4js).signatures.map (fun e => (e.signature).isSome) = [true] ∧
    base64ToBytes defaultHeaderEnc = some (strBytes (jsonStringify
      (.obj (.cons ("alg".toList) (.str ("ES256K".toList)) .nil)))) :=
  claim_C4 (.inr (.obj .nil)) signerC c4js
    (fun d out h => ⟨⟨List.replicate 64 '0', List.replicate 64 '0', none⟩,
      by injection h with h2; exact h2.symm⟩)
    (fun s0 h => Sum.noConfusion h)
    rfl
